import Mathlib

/-!
Verification of the neatvnc display/encoder pipeline core.

Shallow embedding of the C sources:
  * `src/src/display.c`       — Tight encoder (tile grid, damage application,
                                 shard work loops, finalisation, size encoding)
  * `src/src/h264-encoder.c`  — H.264 worker pipeline (queue, work / work-done)
  * `src/unnamed/part_000`    — Open-H.264 framing (open-h264.c)

Machine integers are modelled as `Nat`/`Int` with explicit truncation where
the C code truncates.  Byte vectors (`struct vec`) are `List Nat` of byte
values.  Helper routines from `enc-util.c`, which is not part of the source
tree given, are modelled from the specification and marked as such.
-/

namespace NeatVNC

/-! ## Byte-level helpers

`struct vec` is a growable byte buffer; we model its contents as `List Nat`
with every element a byte value. -/

/-- `vec_fast_append_8`: append one byte (uint8_t truncation). -/
def vec_fast_append_8 (dst : List Nat) (b : Nat) : List Nat :=
  dst ++ [b % 256]

/-- Big-endian 16-bit word as two bytes (`htons` on a uint16_t value). -/
def u16be (v : Nat) : List Nat :=
  [v / 256 % 256, v % 256]

/-- Big-endian 32-bit word as four bytes (`htonl` on a uint32_t value). -/
def u32be (v : Nat) : List Nat :=
  [v / 2 ^ 24 % 256, v / 2 ^ 16 % 256, v / 2 ^ 8 % 256, v % 256]

/-- Read the leading big-endian u16 of a byte buffer. -/
def readU16be : List Nat → Nat
  | a :: b :: _ => 256 * a + b
  | _ => 0

/-- Modelled from the spec: `encode_rect_count` (from `enc-util.c`, absent from
the given sources) emits the rectangle count as a big-endian u16
("Emit `n_rects` as a big-endian u16 into `dst`"). -/
def encode_rect_count (dst : List Nat) (n : Nat) : List Nat :=
  dst ++ u16be (n % 2 ^ 16)

/-- Modelled from the spec: `encode_rect_head` (from `enc-util.c`, absent from
the given sources) emits `u16 x · u16 y · u16 w · u16 h · s32 encoding`, all
big-endian.  Encoding value for Tight is 7, for Open-H.264 is 50. -/
def encode_rect_head (dst : List Nat) (encoding x y w h : Nat) : List Nat :=
  dst ++ u16be (x % 2 ^ 16) ++ u16be (y % 2 ^ 16) ++ u16be (w % 2 ^ 16)
      ++ u16be (h % 2 ^ 16) ++ u32be (encoding % 2 ^ 32)

/-- RFB encoding number for Tight rectangles. -/
def RFB_ENCODING_TIGHT : Nat := 7

/-- RFB encoding number for Open-H.264 rectangles. -/
def RFB_ENCODING_OPEN_H264 : Nat := 50

/-! ## Tight encoder: tile grid and damage application (`display.c`) -/

/-- `enum tight_tile_state` in `display.c`. -/
inductive TileState
  | ready
  | damaged
  | encoded
deriving DecidableEq, Repr

/-- The tile grid, indexed by grid coordinates.  (The C code stores a flat
array `grid[x + y * grid_width]`; cells outside the grid are never read.) -/
abbrev Grid := Nat → Nat → TileState

/-- Functional update of one grid cell. -/
def gridSet (g : Grid) (x y : Nat) (st : TileState) : Grid :=
  fun a b => if a = x ∧ b = y then st else g a b

/-- `struct pixman_box16`: a half-open box `[x1, x2) × [y1, y2)` in the pixman
convention.  Coordinates are modelled as unbounded `Int`; the C type is
`int16_t`, so theorems quantifying over arbitrary grids carry explicit bounds
keeping the source coordinates inside the int16 range. -/
structure Box where
  x1 : Int
  y1 : Int
  x2 : Int
  y2 : Int
deriving DecidableEq, Repr

/-- A pixman region, as the union of its rectangles. -/
abbrev Region := List Box

/-- Nonempty intersection of two half-open boxes. -/
def boxOverlaps (a b : Box) : Bool :=
  max a.x1 b.x1 < min a.x2 b.x2 && max a.y1 b.y1 < min a.y2 b.y2

/-- `pixman_region_contains_rectangle(region, box) != PIXMAN_REGION_OUT`:
the query box meets at least one rectangle of the region. -/
def regionOverlapsBox (r : Region) (b : Box) : Bool :=
  r.any fun a => boxOverlaps a b

/-- The box built for tile `(x, y)` in `tight_apply_damage`:
`{ .x1 = x*TSL, .y1 = y*TSL, .x2 = ((x+1)*TSL)-1, .y2 = ((y+1)*TSL)-1 }`
with `TSL = 64`. -/
def tightDamageBox (x y : Nat) : Box :=
  ⟨64 * (x : Int), 64 * (y : Int), 64 * ((x : Int) + 1) - 1, 64 * ((y : Int) + 1) - 1⟩

/-- The tiles in the order the C loops walk them: `y` outer, `x` inner. -/
def rowMajorTiles (gw gh : Nat) : List (Nat × Nat) :=
  (List.range gh).flatMap fun y => (List.range gw).map fun x => (x, y)

/-- One iteration of the `tight_apply_damage` double loop: test the tile box
against the damage region, set the tile state, bump the damaged count. -/
def applyDamageStep (damage : Region) (acc : Nat × Grid) (p : Nat × Nat) : Nat × Grid :=
  if regionOverlapsBox damage (tightDamageBox p.1 p.2) then
    (acc.1 + 1, gridSet acc.2 p.1 p.2 .damaged)
  else
    (acc.1, gridSet acc.2 p.1 p.2 .ready)

/-- `tight_apply_damage`: walk the grid row-major, mark each tile `damaged`
or `ready`, return the number of damaged tiles together with the new grid. -/
def tight_apply_damage (gw gh : Nat) (damage : Region) (g : Grid) : Nat × Grid :=
  (rowMajorTiles gw gh).foldl (applyDamageStep damage) (0, g)

/-- `tight_tile_width`: clip a tile to the frame at the right edge. -/
def tight_tile_width (w x : Nat) : Nat :=
  if x + 64 > w then w - x else 64

/-- `tight_tile_height`: clip a tile to the frame at the bottom edge. -/
def tight_tile_height (h y : Nat) : Nat :=
  if y + 64 > h then h - y else 64

/-! ## Tight encoder: compact size encoding (`tight_encode_size`) -/

/-- `tight_encode_size`: append the Tight compact length field for `size`
(`size_t`, nonnegative) to `dst`. -/
def tight_encode_size (dst : List Nat) (size : Nat) : List Nat :=
  let dst := vec_fast_append_8 dst
      ((size &&& 0x7f) ||| ((if size ≥ 128 then 1 else 0) <<< 7))
  let dst := if size ≥ 128 then
      vec_fast_append_8 dst
        (((size >>> 7) &&& 0x7f) ||| ((if size ≥ 16384 then 1 else 0) <<< 7))
    else dst
  if size ≥ 16384 then
    vec_fast_append_8 dst ((size >>> 14) &&& 0xff)
  else dst

/-- Decode little-endian base-128 digits: each byte contributes its low
7 bits. -/
def decodeBase128 : List Nat → Nat
  | [] => 0
  | b :: rest => b % 128 + 128 * decodeBase128 rest

/-! ## Tight encoder: worker shards (`do_tight_zs_work`, `tight_encode_tile`)

A shard with index `i` runs `for (y = 0; ...) for (x = index; x < grid_width;
x += 4)` and encodes each tile whose state is `damaged`.  In the lossless path
`tight_encode_tile` calls `tight_encode_tile_basic(..., gx % 4)`, i.e. the
deflate stream index passed for the tile at grid column `gx` is `gx % 4`, and
finally sets the tile state to `encoded`.  The deflate byte stream itself
(zlib) is not modelled; we record, per encoded tile, which stream index was
handed to `tight_encode_tile_basic`. -/

/-- The grid columns visited by the loop `for (x = index; x < gw; x += 4)`,
in visiting order: `index, index + 4, index + 8, ...` while `< gw`. -/
def shardCols (index gw : Nat) : List Nat :=
  (List.range ((gw - index + 3) / 4)).map fun k => index + 4 * k

/-- The tiles shard `index` visits: `y` outer loop, columns inner. -/
def shardTiles (index gw gh : Nat) : List (Nat × Nat) :=
  (List.range gh).flatMap fun y => (shardCols index gw).map fun x => (x, y)

/-- One shard-loop iteration: if the visited tile is damaged, encode it
(with deflate stream `gx % 4` in the lossless path) and mark it `encoded`;
the log records `(tile, stream index used)`. -/
def zsWorkStep (acc : Grid × List ((Nat × Nat) × Nat)) (p : Nat × Nat) :
    Grid × List ((Nat × Nat) × Nat) :=
  if acc.1 p.1 p.2 = .damaged then
    (gridSet acc.1 p.1 p.2 .encoded, acc.2 ++ [(p, p.1 % 4)])
  else acc

/-- `do_tight_zs_work` for shard `index` at lossless quality: returns the
updated grid and the log of `(tile, deflate stream index)` encodes. -/
def do_tight_zs_work (index gw gh : Nat) (g : Grid) :
    Grid × List ((Nat × Nat) × Nat) :=
  (shardTiles index gw gh).foldl zsWorkStep (g, [])

/-- The grid after all four shards have completed.  The shards run in
parallel on column-disjoint tile sets; composing them sequentially yields the
same grid. -/
def runAllZsWork (gw gh : Nat) (g : Grid) : Grid :=
  (do_tight_zs_work 3 gw gh
    (do_tight_zs_work 2 gw gh
      (do_tight_zs_work 1 gw gh
        (do_tight_zs_work 0 gw gh g).1).1).1).1

/-! ## Tight encoder: finalisation (`tight_finish_tile`, `tight_finish`) -/

/-- A rectangle head as appended by `encode_rect_head` in
`tight_finish_tile`. -/
structure RectHead where
  x : Nat
  y : Nat
  w : Nat
  h : Nat
  encoding : Nat
deriving DecidableEq, Repr

/-- The bytes of one rectangle head. -/
def rectHeadBytes (r : RectHead) : List Nat :=
  encode_rect_head [] r.encoding r.x r.y r.w r.h

/-- `tight_finish_tile` for one encoded tile: append the rectangle head to
`dst` and reset the tile to `ready`.  The tile body that follows the head
(type byte, compact size, compressed payload) is produced by zlib/JPEG and is
not modelled; it affects neither the head count nor the leading bytes of
`dst`. -/
def finishStep (w h : Nat) (acc : List Nat × Grid × List RectHead) (p : Nat × Nat) :
    List Nat × Grid × List RectHead :=
  if acc.2.1 p.1 p.2 = .encoded then
    let head : RectHead :=
      ⟨64 * p.1, 64 * p.2, tight_tile_width w (64 * p.1),
        tight_tile_height h (64 * p.2), RFB_ENCODING_TIGHT⟩
    (acc.1 ++ rectHeadBytes head, gridSet acc.2.1 p.1 p.2 .ready, acc.2.2 ++ [head])
  else acc

/-- `tight_finish`: walk the grid row-major and finish every `encoded` tile.
Returns the extended destination buffer, the reset grid, and the list of
rectangle heads that were appended. -/
def tight_finish (w h gw gh : Nat) (g : Grid) (dst : List Nat) :
    List Nat × Grid × List RectHead :=
  (rowMajorTiles gw gh).foldl (finishStep w h) (dst, g, [])

/-! ## Tight encoder: `tight_encode_frame`

`tight_encode_frame` maps the frame, initialises `dst`, applies damage,
asserts `n_rects > 0`, writes the rectangle-count header, and schedules the
four shard jobs; the finish job runs after the shards drain.  Failure of
`nvnc_fb_map`, `vec_init` or job scheduling is modelled by explicit flags;
the failed `assert` is a dedicated outcome. -/

inductive EncodeFrameResult
  /-- An early `return -1` (map / vec-init / scheduling failure). -/
  | err
  /-- `assert(self->n_rects > 0)` failed; the process aborts. -/
  | assertAbort
  /-- Work was scheduled; carries `n_rects`, the destination buffer as
  written so far, and the grid after damage application. -/
  | scheduled (nRects : Nat) (dst : List Nat) (grid : Grid)

/-- `tight_encode_frame` control flow up to (and including) job scheduling. -/
def tight_encode_frame (gw gh : Nat) (mapOk vecOk schedOk : Bool)
    (damage : Region) (g : Grid) : EncodeFrameResult :=
  if !mapOk then .err
  else if !vecOk then .err
  else
    let r := tight_apply_damage gw gh damage g
    if r.1 = 0 then .assertAbort
    else
      let dst := encode_rect_count [] r.1
      if !schedOk then .err
      else .scheduled r.1 dst r.2

/-- The whole Tight frame pipeline on the success path: damage application,
rectangle-count header, the four shards, then finalisation.  Returns
`(n_rects, final dst, heads appended by the finish pass)`.  Frame dimensions
`w × h` give the tile grid `UDIV_UP(w, 64) × UDIV_UP(h, 64)`. -/
def tightFramePipeline (w h : Nat) (damage : Region) :
    Nat × List Nat × List RectHead :=
  let gw := (w + 63) / 64
  let gh := (h + 63) / 64
  let r := tight_apply_damage gw gh damage fun _ _ => .ready
  let dst := encode_rect_count [] r.1
  let g4 := runAllZsWork gw gh r.2
  let f := tight_finish w h gw gh g4 dst
  (r.1, f.1, f.2.2)

/-! ## H.264 encoder (`h264-encoder.c`)

Framebuffers are identified by opaque tokens (`Nat`).  A packet carries the
payload handed to `on_packet_ready` (`data` bytes and `size`); what libav puts
there is opaque, so packets are opaque tokens as well.  The libav calls inside
`h264_encoder__encode` are modelled by their combined result code `rc`
(`avcodec_receive_packet` returns 0 on success; the earlier failure paths of
`h264_encoder__encode` return -1). -/

/-- The mutable fields of `struct h264_encoder` the worker pipeline uses. -/
structure H264Encoder where
  current_fb : Option Nat
  current_packet : Option Nat
  fb_queue : List Nat
  next_frame_should_be_keyframe : Bool
  current_frame_is_keyframe : Bool
deriving DecidableEq, Repr

/-- Observable effects of one main-scheduler callback. -/
structure H264Events where
  /-- FBs passed to `nvnc_fb_release` / `nvnc_fb_unref`. -/
  released : List Nat
  /-- Packets passed to `on_packet_ready`, in order. -/
  packets : List Nat
  /-- FBs for which a worker job was started (`aml_start`). -/
  started : List Nat
deriving DecidableEq, Repr

/-- `h264_encoder__schedule_work`: if no encode is in flight, dequeue the
head FB as current, latch the keyframe flag, and start the worker.  Returns
the new state and the FB a job was started for, if any. -/
def h264_encoder__schedule_work (s : H264Encoder) : H264Encoder × Option Nat :=
  if s.current_fb.isSome then (s, none)
  else
    match s.fb_queue with
    | [] => (s, none)
    | fb :: rest =>
        ({ s with
            current_fb := some fb
            fb_queue := rest
            current_frame_is_keyframe := s.next_frame_should_be_keyframe
            next_frame_should_be_keyframe := false }, some fb)

/-- `h264_encoder__do_work` (worker thread): run the encode; the source reads

    int rc = h264_encoder__encode(self, frame, packet);
    if (rc == 0) {
            av_packet_free(&packet);
            goto failure;
    }
    self->current_packet = packet;

so the freshly produced packet is stored in `current_packet` exactly when
`rc ≠ 0`.  `pkt` is the packet `av_packet_alloc` produced for this encode. -/
def h264_encoder__do_work (s : H264Encoder) (rc : Int) (pkt : Nat) : H264Encoder :=
  if rc = 0 then s
  else { s with current_packet := some pkt }

/-- `h264_encoder__on_work_done` (main scheduler): release and unref the
current FB and clear the slot; if a packet is pending, hand it to
`on_packet_ready`, clear it, and schedule the next queued FB; otherwise
return immediately. -/
def h264_encoder__on_work_done (s : H264Encoder) : H264Encoder × H264Events :=
  let released := s.current_fb.toList
  let s1 := { s with current_fb := none }
  match s1.current_packet with
  | none => (s1, ⟨released, [], []⟩)
  | some pkt =>
      let s2 := { s1 with current_packet := none }
      let r := h264_encoder__schedule_work s2
      (r.1, ⟨released, [pkt], r.2.toList⟩)

/-- `h264_encoder__init_codec_context`: the codec-context fields assigned
from the target dimensions of the encoder.  The source reads

    c->width = self->width;
    c->height = self->width;

(both from `self->width`). -/
structure AVCodecContextCfg where
  width : Nat
  height : Nat
  gop_size : Nat
  max_b_frames : Nat
  profile : Nat
deriving DecidableEq, Repr

def h264_encoder__init_codec_context (selfWidth selfHeight : Nat) : AVCodecContextCfg :=
  { width := selfWidth
    height := selfWidth
    gop_size := 2 ^ 31 - 1
    max_b_frames := 0
    profile := 578 }

/-! ## Open-H.264 framing (`src/unnamed/part_000`, open-h264.c) -/

/-- `enum open_h264_flags` exactly as declared in the source:
`OPEN_H264_FLAG_RESET_CONTEXT = 0, OPEN_H264_FLAG_RESET_ALL_CONTEXTS = 1`. -/
def OPEN_H264_FLAG_RESET_CONTEXT : Nat := 0

def OPEN_H264_FLAG_RESET_ALL_CONTEXTS : Nat := 1

/-- The fields of `struct open_h264` the framing logic uses.  `encoder`
presence is implicit (`feed_frame` asserts it after any resize). -/
structure OpenH264 where
  width : Nat
  height : Nat
  format : Nat
  pending : List Nat
  needs_reset : Bool
deriving DecidableEq, Repr

/-- `open_h264_encode_header`: rect count 1, one Open-H.264 rect head
covering `(0, 0, width, height)`, then `u32 length · u32 flags`, both
big-endian (`vec_append_zero` then `htonl` stores). -/
def open_h264_encode_header (s : OpenH264) (dst : List Nat)
    (payloadSize flags : Nat) : List Nat :=
  let dst := encode_rect_count dst 1
  let dst := encode_rect_head dst RFB_ENCODING_OPEN_H264 0 0 s.width s.height
  dst ++ u32be (payloadSize % 2 ^ 32) ++ u32be (flags % 2 ^ 32)

/-- `open_h264_read`: returns `(rc, new state, out buffer)`.  With empty
`pending` it returns 0 and leaves the buffer untouched; otherwise it clears
the buffer, computes `flags = needs_reset ? OPEN_H264_FLAG_RESET_CONTEXT : 0`,
clears `needs_reset`, writes header plus pending payload, clears `pending`,
and returns 1.  (Vec growth cannot fail in the model, so the `-1` paths of
the source do not arise.) -/
def open_h264_read (s : OpenH264) (buffer : List Nat) :
    Int × OpenH264 × List Nat :=
  if s.pending.length = 0 then (0, s, buffer)
  else
    let flags := if s.needs_reset then OPEN_H264_FLAG_RESET_CONTEXT else 0
    let s1 := { s with needs_reset := false }
    let out := open_h264_encode_header s1 [] s1.pending.length flags
    let out := out ++ s1.pending
    (1, { s1 with pending := [] }, out)

/-- The 32-bit flags word inside a buffer produced by `open_h264_read`:
it sits after the 2-byte rect count, the 12-byte rect head and the 4-byte
length field, i.e. at byte offset 18. -/
def openH264FlagsWord (out : List Nat) : Nat :=
  match out.drop 18 with
  | a :: b :: c :: d :: _ => ((a * 256 + b) * 256 + c) * 256 + d
  | _ => 0

/-- `open_h264_resize`: recreate the encoder for the new geometry.  Encoder
creation may fail (`h264_encoder_create` returns NULL); `createOk` stands for
its outcome.  On success the geometry is adopted and `needs_reset` is set. -/
def open_h264_resize (s : OpenH264) (w h fmt : Nat) (createOk : Bool) :
    Option OpenH264 :=
  if createOk then
    some { s with width := w, height := h, format := fmt, needs_reset := true }
  else none

/-- `open_h264_feed_frame`: resize if the FB geometry differs (propagating
resize failure as -1), then feed the FB to the H.264 encoder and return.
The source ends with

    // TODO: encoder_feed should return an error code
    h264_encoder_feed(self->encoder, fb);
    return -1;

so the fed-successfully path also returns -1. -/
def open_h264_feed_frame (s : OpenH264) (w h fmt : Nat) (createOk : Bool) :
    Int × OpenH264 :=
  if w ≠ s.width ∨ h ≠ s.height ∨ fmt ≠ s.format then
    match open_h264_resize s w h fmt createOk with
    | none => (-1, s)
    | some s1 => (-1, s1)
  else (-1, s)

/-! ## Helper lemmas -/

theorem lor_128_of_lt (x : Nat) (hx : x < 128) : x ||| 128 = x + 128 := by
  revert hx
  revert x
  decide

theorem and_127_eq_mod (n : Nat) : n &&& 127 = n % 128 := by
  have h := Nat.and_pow_two_sub_one_eq_mod n 7
  norm_num at h
  exact h

theorem shiftRight_7_eq (n : Nat) : n >>> 7 = n / 128 := by
  have h := Nat.shiftRight_eq_div_pow n 7
  norm_num at h
  exact h

theorem shiftRight_14_eq (n : Nat) : n >>> 14 = n / 16384 := by
  have h := Nat.shiftRight_eq_div_pow n 14
  norm_num at h
  exact h

theorem and_255_eq_mod (n : Nat) : n &&& 255 = n % 256 := by
  have h := Nat.and_pow_two_sub_one_eq_mod n 8
  norm_num at h
  exact h

/-- The bytes `tight_encode_size` produces, in closed form per branch. -/
theorem tight_encode_size_eq (size : Nat) :
    tight_encode_size [] size =
      if size < 128 then [size % 128]
      else if size < 16384 then [size % 128 + 128, size / 128 % 128]
      else [size % 128 + 128, size / 128 % 128 + 128, size / 16384 % 256] := by
  unfold tight_encode_size vec_fast_append_8
  have e128 : (1 : Nat) <<< 7 = 128 := rfl
  have e0 : (0 : Nat) <<< 7 = 0 := rfl
  by_cases h1 : size ≥ 128
  · by_cases h2 : size ≥ 16384
    · simp only [h1, h2, ite_true, e128]
      rw [if_neg (by omega : ¬ size < 128), if_neg (by omega : ¬ size < 16384)]
      simp only [shiftRight_7_eq, shiftRight_14_eq, and_127_eq_mod, and_255_eq_mod]
      rw [lor_128_of_lt (size % 128) (by omega),
          lor_128_of_lt (size / 128 % 128) (by omega)]
      simp only [List.nil_append, List.cons_append, List.nil_append,
        List.cons.injEq, and_true]
      omega
    · simp only [h1, h2, ite_true, ite_false, e128, e0]
      rw [if_neg (by omega : ¬ size < 128), if_pos (by omega : size < 16384)]
      simp only [shiftRight_7_eq, and_127_eq_mod, Nat.or_zero]
      rw [lor_128_of_lt (size % 128) (by omega)]
      simp only [List.nil_append, List.cons_append, List.cons.injEq, and_true]
      omega
  · simp only [h1, ite_false, e0, Nat.or_zero, and_127_eq_mod]
    rw [if_neg (by omega : ¬ size ≥ 16384), if_pos (by omega : size < 128)]
    simp only [List.nil_append, List.cons.injEq, and_true]
    omega

/-- C8: for every `size ≤ 2²¹ − 1`, `tight_encode_size` appends between one
and three bytes; every byte but the last has its continuation MSB set
(value ≥ 128, < 256) and the MSB of the last byte is clear (value < 128); decoding
the bytes as a little-endian base-128 number recovers `size`. -/
theorem tight_encode_size_roundtrip (size : Nat) (hsize : size ≤ 2 ^ 21 - 1) :
    1 ≤ (tight_encode_size [] size).length ∧
    (tight_encode_size [] size).length ≤ 3 ∧
    (∀ b ∈ (tight_encode_size [] size).dropLast, 128 ≤ b ∧ b < 256) ∧
    (∀ b, (tight_encode_size [] size).getLast? = some b → b < 128) ∧
    decodeBase128 (tight_encode_size [] size) = size := by
  rw [tight_encode_size_eq]
  by_cases h1 : size < 128
  · simp only [if_pos h1, List.length_singleton, List.dropLast_single,
      List.getLast?_singleton, decodeBase128]
    refine ⟨by omega, by omega, by simp, ?_, by omega⟩
    intro b hb
    simp at hb
    omega
  · by_cases h2 : size < 16384
    · simp only [if_neg h1, if_pos h2, decodeBase128]
      refine ⟨by simp, by simp, ?_, ?_, by omega⟩
      · intro b hb
        simp [List.dropLast] at hb
        omega
      · intro b hb
        simp [List.getLast?] at hb
        omega
    · simp only [if_neg h1, if_neg h2, decodeBase128]
      have hx : size / 16384 < 128 := by omega
      refine ⟨by simp, by simp, ?_, ?_, by omega⟩
      · intro b hb
        simp [List.dropLast] at hb
        rcases hb with hb | hb <;> omega
      · intro b hb
        simp [List.getLast?] at hb
        omega

/-- C8 witness: the theorem applied at `size = 300000`. -/
theorem tight_encode_size_roundtrip_witness :
    1 ≤ (tight_encode_size [] 300000).length ∧
    (tight_encode_size [] 300000).length ≤ 3 ∧
    (∀ b ∈ (tight_encode_size [] 300000).dropLast, 128 ≤ b ∧ b < 256) ∧
    (∀ b, (tight_encode_size [] 300000).getLast? = some b → b < 128) ∧
    decodeBase128 (tight_encode_size [] 300000) = 300000 :=
  tight_encode_size_roundtrip 300000 (by norm_num)

/-! ## Open-H.264 flags (C1) -/

/-- C1 (code bug): with `needs_reset` latched and pending data available,
`open_h264_read` returns 1 and does clear the latch, but the emitted 32-bit
flags word is 0 — bit 0x1 is NOT set, because the source defines
`OPEN_H264_FLAG_RESET_CONTEXT = 0` inside `enum open_h264_flags` instead of
the bit value `1 << 0` the wire format ("0x1 = reset context") calls for.
Evaluated at the failing input: a 640×480 framer with one pending byte and
the latch set. -/
theorem open_h264_read_reset_flag_bug :
    (open_h264_read ⟨640, 480, 1, [7], true⟩ []).1 = 1 ∧
    (open_h264_read ⟨640, 480, 1, [7], true⟩ []).2.1.needs_reset = false ∧
    openH264FlagsWord (open_h264_read ⟨640, 480, 1, [7], true⟩ []).2.2 = 0 ∧
    openH264FlagsWord (open_h264_read ⟨640, 480, 1, [7], true⟩ []).2.2 &&& 1 = 0 := by
  decide

/-! ## H.264 worker packet handling (C2) -/

/-- C2 (code bug): `h264_encoder__do_work` keeps the packet exactly when
`h264_encoder__encode` returned nonzero.  `avcodec_receive_packet` (whose
result the encode helper returns on its success path) yields 0 on success, so
a successful encode frees its packet and `on_packet_ready` never fires for
it, while a failed encode (nonzero `rc`) stores the packet and the handler
fires with it.  Evaluated at an in-flight state with FB 5 and packet token
77: `rc = 0` produces no handler call, `rc = -22` produces one. -/
theorem h264_do_work_inverted_packet_check :
    (h264_encoder__on_work_done
      (h264_encoder__do_work ⟨some 5, none, [], false, false⟩ 0 77)).2.packets = [] ∧
    (h264_encoder__on_work_done
      (h264_encoder__do_work ⟨some 5, none, [], false, false⟩ (-22) 77)).2.packets = [77] := by
  decide

/-! ## H.264 completion callback (C3) -/

/-- C3 counterexample: a completed encode with no pending packet and a
non-empty FB queue.  The callback clears the in-flight slot but returns
early: the queue keeps its head and no new worker encode is started, contrary
to the claim that a non-empty queue always gets its next FB scheduled. -/
theorem h264_on_work_done_stall_counterexample :
    (h264_encoder__on_work_done ⟨some 3, none, [9], false, false⟩).1.current_fb = none ∧
    (h264_encoder__on_work_done ⟨some 3, none, [9], false, false⟩).1.fb_queue = [9] ∧
    (h264_encoder__on_work_done ⟨some 3, none, [9], false, false⟩).2.started = [] := by
  decide

/-- C3 amended: after `h264_encoder__on_work_done`, the previous current FB
has been released and unreffed.  If no packet is pending, the callback only
clears the in-flight slot: the queue is untouched and nothing is scheduled.
If a packet is pending, the handler fires with it and, when the FB queue is
non-empty, its head is dequeued, becomes the new current FB (latching the
keyframe flag), and a worker encode is started for it; with an empty queue
the in-flight slot stays clear. -/
theorem h264_on_work_done_behaviour (s : H264Encoder) :
    (h264_encoder__on_work_done s).2.released = s.current_fb.toList ∧
    (s.current_packet = none →
      h264_encoder__on_work_done s =
        ({ s with current_fb := none }, ⟨s.current_fb.toList, [], []⟩)) ∧
    (∀ pkt, s.current_packet = some pkt → s.fb_queue = [] →
      h264_encoder__on_work_done s =
        ({ s with current_fb := none, current_packet := none },
          ⟨s.current_fb.toList, [pkt], []⟩)) ∧
    (∀ pkt fb rest, s.current_packet = some pkt → s.fb_queue = fb :: rest →
      h264_encoder__on_work_done s =
        ({ s with
            current_fb := some fb
            current_packet := none
            fb_queue := rest
            current_frame_is_keyframe := s.next_frame_should_be_keyframe
            next_frame_should_be_keyframe := false },
          ⟨s.current_fb.toList, [pkt], [fb]⟩)) := by
  refine ⟨?_, ?_, ?_, ?_⟩
  · unfold h264_encoder__on_work_done
    cases s.current_packet <;> simp [h264_encoder__schedule_work]
  · intro h
    unfold h264_encoder__on_work_done
    simp [h]
  · intro pkt h hq
    unfold h264_encoder__on_work_done
    simp [h, h264_encoder__schedule_work, hq]
  · intro pkt fb rest h hq
    unfold h264_encoder__on_work_done
    simp [h, h264_encoder__schedule_work, hq]

/-- C3 amended witness: the theorem applied at the state with current FB 1,
pending packet 9 and queue `[2, 3]`. -/
theorem h264_on_work_done_behaviour_witness :
    h264_encoder__on_work_done ⟨some 1, some 9, [2, 3], true, false⟩ =
      (⟨some 2, none, [3], false, true⟩, ⟨[1], [9], [2]⟩) :=
  (h264_on_work_done_behaviour ⟨some 1, some 9, [2, 3], true, false⟩).2.2.2
    9 2 [3] rfl rfl

/-! ## Open-H.264 feed return code (C4) -/

/-- C4 (code bug): `open_h264_feed_frame` ends in `return -1` even on the
successful path (the source carries the comment "TODO: encoder_feed should
return an error code").  Evaluated at the failing input: a frame whose
geometry matches the framer (no resize needed), fed successfully — the
return value is -1, not the claimed 0. -/
theorem open_h264_feed_frame_returns_minus_one :
    (open_h264_feed_frame ⟨640, 480, 1, [], false⟩ 640 480 1 true).1 = -1 ∧
    (open_h264_feed_frame ⟨640, 480, 1, [], false⟩ 640 480 1 true).2 =
      ⟨640, 480, 1, [], false⟩ := by
  decide

/-! ## H.264 codec-context dimensions (C5) -/

/-- C5 (code bug): `h264_encoder__init_codec_context` assigns
`c->height = self->width`, so for target 640×480 the codec context gets
height 640, not the claimed 480 (while width is 640 as claimed). -/
theorem h264_codec_ctx_height_bug :
    (h264_encoder__init_codec_context 640 480).width = 640 ∧
    (h264_encoder__init_codec_context 640 480).height = 640 ∧
    (h264_encoder__init_codec_context 640 480).height ≠ 480 := by
  decide

/-! ## Damage-application characterisation -/

theorem applyDamage_foldl_count (damage : Region) (ps : List (Nat × Nat))
    (n : Nat) (g : Grid) :
    (ps.foldl (applyDamageStep damage) (n, g)).1 =
      n + (ps.filter fun p =>
        regionOverlapsBox damage (tightDamageBox p.1 p.2)).length := by
  induction ps generalizing n g with
  | nil => simp
  | cons p tl ih =>
    simp only [List.foldl_cons, List.filter_cons]
    by_cases h : regionOverlapsBox damage (tightDamageBox p.1 p.2)
    · simp only [applyDamageStep, h, ite_true, ih, List.length_cons]
      omega
    · simp only [applyDamageStep, h, ite_false, ih, Bool.false_eq_true]

theorem applyDamage_foldl_grid (damage : Region) (ps : List (Nat × Nat))
    (n : Nat) (g : Grid) (x y : Nat) :
    (ps.foldl (applyDamageStep damage) (n, g)).2 x y =
      if (x, y) ∈ ps then
        (if regionOverlapsBox damage (tightDamageBox x y) then .damaged else .ready)
      else g x y := by
  induction ps generalizing n g with
  | nil => simp
  | cons p tl ih =>
    obtain ⟨px, py⟩ := p
    simp only [List.foldl_cons]
    rw [ih]
    by_cases hm : (x, y) ∈ tl
    · simp [hm]
    · by_cases hp : x = px ∧ y = py
      · obtain ⟨rfl, rfl⟩ := hp
        simp only [hm, ite_false, List.mem_cons, true_or, if_pos, Prod.mk.injEq,
          and_self, true_or, ite_true]
        unfold applyDamageStep
        by_cases h : regionOverlapsBox damage (tightDamageBox x y) <;>
          simp [h, gridSet]
      · have hne : ¬((x, y) ∈ (px, py) :: tl) := by
          simp [List.mem_cons, Prod.mk.injEq, hm]
          intro h1 h2
          exact absurd ⟨h1, h2⟩ hp
        simp only [hm, ite_false, hne]
        unfold applyDamageStep
        by_cases h : regionOverlapsBox damage (tightDamageBox px py) <;>
          simp [h, gridSet] <;>
          exact fun h1 h2 => absurd ⟨h1, h2⟩ hp

theorem mem_rowMajorTiles (gw gh x y : Nat) :
    (x, y) ∈ rowMajorTiles gw gh ↔ x < gw ∧ y < gh := by
  simp only [rowMajorTiles, List.mem_flatMap, List.mem_map, List.mem_range,
    Prod.mk.injEq]
  constructor
  · rintro ⟨a, ha, b, hb, rfl, rfl⟩
    exact ⟨hb, ha⟩
  · rintro ⟨hx, hy⟩
    exact ⟨y, hy, x, hx, rfl, rfl⟩

/-- The tile state `tight_apply_damage` leaves at an in-range cell. -/
theorem tight_apply_damage_grid_eq (gw gh : Nat) (damage : Region) (g : Grid)
    (x y : Nat) (hx : x < gw) (hy : y < gh) :
    (tight_apply_damage gw gh damage g).2 x y =
      if regionOverlapsBox damage (tightDamageBox x y) then .damaged else .ready := by
  unfold tight_apply_damage
  rw [applyDamage_foldl_grid]
  simp [mem_rowMajorTiles, hx, hy]

/-- The damaged-tile count `tight_apply_damage` returns. -/
theorem tight_apply_damage_count_eq (gw gh : Nat) (damage : Region) (g : Grid) :
    (tight_apply_damage gw gh damage g).1 =
      ((rowMajorTiles gw gh).filter fun p =>
        regionOverlapsBox damage (tightDamageBox p.1 p.2)).length := by
  unfold tight_apply_damage
  rw [applyDamage_foldl_count]
  omega

/-- Follows the words of the claim, for comparison with the source behaviour: the
64×64 pixel box of the tile, clipped to the frame at the right/bottom edges. -/
def spec_clippedTileBox (w h x y : Nat) : Box :=
  ⟨64 * (x : Int), 64 * (y : Int),
    min (64 * ((x : Int) + 1)) (w : Int), min (64 * ((y : Int) + 1)) (h : Int)⟩

/-- C6 counterexample: a 64×64 frame (one tile) with damage covering exactly
the last pixel column of the tile.  The clipped 64×64 tile box of the claim meets
the damage, yet `tight_apply_damage` classifies the tile `ready` and counts
zero damaged tiles: the source tests the box
`[64x, 64(x+1)−1) × [64y, 64(y+1)−1)`, which misses the last pixel
row and column of the tile under the half-open pixman box convention. -/
theorem tight_apply_damage_claim_counterexample :
    (tight_apply_damage 1 1 [⟨63, 0, 64, 64⟩] fun _ _ => .ready).2 0 0 = .ready ∧
    (tight_apply_damage 1 1 [⟨63, 0, 64, 64⟩] fun _ _ => .ready).1 = 0 ∧
    regionOverlapsBox [⟨63, 0, 64, 64⟩] (spec_clippedTileBox 64 64 0 0) = true := by
  decide

/-- C6 amended: after `tight_apply_damage`, an in-range tile `(x, y)` is in
state `damaged` iff the half-open box
`[64x, 64(x+1)−1) × [64y, 64(y+1)−1)` — the 64×64 pixel box of the tile minus its
last pixel row and column, not clipped to the frame — meets some rectangle of
the damage region, and in state `ready` otherwise; the returned count equals
the number of tiles the grid holds in state `damaged`. -/
theorem tight_apply_damage_spec (gw gh x y : Nat) (damage : Region) (g : Grid)
    (hx : x < gw) (hy : y < gh) :
    ((tight_apply_damage gw gh damage g).2 x y =
      if ∃ b ∈ damage,
          max b.x1 (64 * (x : Int)) < min b.x2 (64 * ((x : Int) + 1) - 1) ∧
          max b.y1 (64 * (y : Int)) < min b.y2 (64 * ((y : Int) + 1) - 1)
        then .damaged else .ready) ∧
    (tight_apply_damage gw gh damage g).1 =
      ((rowMajorTiles gw gh).filter fun p =>
        (tight_apply_damage gw gh damage g).2 p.1 p.2 = .damaged).length := by
  constructor
  · rw [tight_apply_damage_grid_eq gw gh damage g x y hx hy]
    have hiff : regionOverlapsBox damage (tightDamageBox x y) = true ↔
        ∃ b ∈ damage,
          max b.x1 (64 * (x : Int)) < min b.x2 (64 * ((x : Int) + 1) - 1) ∧
          max b.y1 (64 * (y : Int)) < min b.y2 (64 * ((y : Int) + 1) - 1) := by
      simp [regionOverlapsBox, boxOverlaps, tightDamageBox, List.any_eq_true]
    by_cases hE : ∃ b ∈ damage,
        max b.x1 (64 * (x : Int)) < min b.x2 (64 * ((x : Int) + 1) - 1) ∧
        max b.y1 (64 * (y : Int)) < min b.y2 (64 * ((y : Int) + 1) - 1)
    · rw [if_pos (hiff.mpr hE), if_pos hE]
    · rw [if_neg (fun h => hE (hiff.mp h)), if_neg hE]
  · rw [tight_apply_damage_count_eq]
    refine congrArg List.length (List.filter_congr ?_)
    intro p hp
    obtain ⟨hpx, hpy⟩ := (mem_rowMajorTiles gw gh p.1 p.2).mp (by simpa using hp)
    rw [tight_apply_damage_grid_eq gw gh damage g p.1 p.2 hpx hpy]
    by_cases h : regionOverlapsBox damage (tightDamageBox p.1 p.2) <;> simp [h]

/-- C6 amended witness: the theorem applied to a 64×64 frame with full-frame
damage at tile `(0, 0)`. -/
theorem tight_apply_damage_spec_witness :
    ((tight_apply_damage 1 1 [⟨0, 0, 64, 64⟩] fun _ _ => .ready).2 0 0 =
      if ∃ b ∈ ([⟨0, 0, 64, 64⟩] : Region),
          max b.x1 (64 * ((0 : Nat) : Int)) <
            min b.x2 (64 * (((0 : Nat) : Int) + 1) - 1) ∧
          max b.y1 (64 * ((0 : Nat) : Int)) <
            min b.y2 (64 * (((0 : Nat) : Int) + 1) - 1)
        then .damaged else .ready) ∧
    (tight_apply_damage 1 1 [⟨0, 0, 64, 64⟩] fun _ _ => .ready).1 =
      ((rowMajorTiles 1 1).filter fun p =>
        (tight_apply_damage 1 1 [⟨0, 0, 64, 64⟩] fun _ _ => .ready).2 p.1 p.2 =
          .damaged).length :=
  tight_apply_damage_spec 1 1 0 0 [⟨0, 0, 64, 64⟩] (fun _ _ => .ready)
    (by decide) (by decide)

/-! ## Shard work-loop characterisation -/

theorem mem_shardCols (i gw x : Nat) (hi : i < 4) :
    x ∈ shardCols i gw ↔ x < gw ∧ x % 4 = i := by
  simp only [shardCols, List.mem_map, List.mem_range]
  constructor
  · rintro ⟨k, hk, rfl⟩
    omega
  · rintro ⟨hx, hm⟩
    exact ⟨x / 4, by omega, by omega⟩

theorem mem_shardTiles (i gw gh x y : Nat) (hi : i < 4) :
    (x, y) ∈ shardTiles i gw gh ↔ (x < gw ∧ x % 4 = i) ∧ y < gh := by
  simp only [shardTiles, List.mem_flatMap, List.mem_map, List.mem_range,
    Prod.mk.injEq]
  constructor
  · rintro ⟨a, ha, b, hb, rfl, rfl⟩
    exact ⟨(mem_shardCols i gw _ hi).mp hb, ha⟩
  · rintro ⟨hx, hy⟩
    exact ⟨y, hy, x, (mem_shardCols i gw x hi).mpr hx, rfl, rfl⟩

/-- `zsWorkStep` unfolded at a pair accumulator. -/
theorem zsWorkStep_eq (g : Grid) (l : List ((Nat × Nat) × Nat)) (p : Nat × Nat) :
    zsWorkStep (g, l) p =
      if g p.1 p.2 = TileState.damaged then
        (gridSet g p.1 p.2 TileState.encoded, l ++ [(p, p.1 % 4)])
      else (g, l) := rfl

/-- The log only grows along the shard fold. -/
theorem zsWork_log_mono (ps : List (Nat × Nat)) (g : Grid)
    (l : List ((Nat × Nat) × Nat)) (e : (Nat × Nat) × Nat) (he : e ∈ l) :
    e ∈ (ps.foldl zsWorkStep (g, l)).2 := by
  induction ps generalizing g l with
  | nil => simpa using he
  | cons p tl ih =>
    simp only [List.foldl_cons, zsWorkStep_eq]
    by_cases h : g p.1 p.2 = TileState.damaged
    · simp only [h, ite_true]
      exact ih _ _ (by simp [he])
    · simp only [h, ite_false]
      exact ih _ _ he

/-- Every log entry of the shard fold stems from a visited tile `p` and
records stream index `p.1 % 4`. -/
theorem zsWork_log_shape (ps : List (Nat × Nat)) (g : Grid)
    (l : List ((Nat × Nat) × Nat)) (e : (Nat × Nat) × Nat)
    (he : e ∈ (ps.foldl zsWorkStep (g, l)).2) :
    e ∈ l ∨ ∃ p ∈ ps, e = (p, p.1 % 4) := by
  induction ps generalizing g l with
  | nil => simp at he; exact Or.inl he
  | cons p tl ih =>
    simp only [List.foldl_cons, zsWorkStep_eq] at he
    by_cases h : g p.1 p.2 = TileState.damaged
    · simp only [h, ite_true] at he
      rcases ih _ _ he with hl | ⟨q, hq, rfl⟩
      · rcases List.mem_append.mp hl with hl | hl
        · exact Or.inl hl
        · exact Or.inr ⟨p, List.mem_cons_self p tl, by simpa using hl⟩
      · exact Or.inr ⟨q, List.mem_cons_of_mem p hq, rfl⟩
    · simp only [h, ite_false] at he
      rcases ih _ _ he with hl | ⟨q, hq, rfl⟩
      · exact Or.inl hl
      · exact Or.inr ⟨q, List.mem_cons_of_mem p hq, rfl⟩

/-- A visited tile that is damaged when the fold starts gets logged with
stream index `column % 4`. -/
theorem zsWork_log_complete (ps : List (Nat × Nat)) (g : Grid)
    (l : List ((Nat × Nat) × Nat)) (p : Nat × Nat) (hp : p ∈ ps)
    (hd : g p.1 p.2 = TileState.damaged) :
    (p, p.1 % 4) ∈ (ps.foldl zsWorkStep (g, l)).2 := by
  induction ps generalizing g l with
  | nil => simp at hp
  | cons q tl ih =>
    simp only [List.foldl_cons, zsWorkStep_eq]
    rcases List.mem_cons.mp hp with rfl | hp
    · simp only [hd, ite_true]
      exact zsWork_log_mono tl _ _ _ (by simp)
    · by_cases hq : g q.1 q.2 = TileState.damaged
      · simp only [hq, ite_true]
        by_cases hpq : p = q
        · subst hpq
          exact zsWork_log_mono tl _ _ _ (by simp)
        · refine ih _ _ hp ?_
          unfold gridSet
          have : ¬(p.1 = q.1 ∧ p.2 = q.2) := by
            intro hc
            exact hpq (Prod.ext hc.1 hc.2)
          simp [this, hd]
      · simp only [hq, ite_false]
        exact ih _ _ hp hd

/-- The grid after one shard fold, pointwise. -/
theorem zsWork_grid (ps : List (Nat × Nat)) (g : Grid)
    (l : List ((Nat × Nat) × Nat)) (x y : Nat) :
    (ps.foldl zsWorkStep (g, l)).1 x y =
      if (x, y) ∈ ps ∧ g x y = TileState.damaged then TileState.encoded
      else g x y := by
  induction ps generalizing g l with
  | nil => simp
  | cons q tl ih =>
    obtain ⟨qx, qy⟩ := q
    simp only [List.foldl_cons, zsWorkStep_eq]
    by_cases hq : g qx qy = TileState.damaged
    · simp only [hq, ite_true]
      rw [ih]
      by_cases hpq : x = qx ∧ y = qy
      · obtain ⟨rfl, rfl⟩ := hpq
        simp [gridSet, hq]
      · have hgs : gridSet g qx qy TileState.encoded x y = g x y := by
          simp [gridSet, hpq]
        rw [hgs]
        by_cases hm : (x, y) ∈ tl ∧ g x y = TileState.damaged
        · simp [hm, List.mem_cons]
        · simp only [hm, ite_false]
          rw [if_neg]
          rintro ⟨hmem, hdam⟩
          rcases List.mem_cons.mp hmem with hc | hc
          · exact hpq (by simpa [Prod.mk.injEq] using hc)
          · exact hm ⟨hc, hdam⟩
    · simp only [hq, ite_false]
      rw [ih]
      by_cases hm : (x, y) ∈ tl ∧ g x y = TileState.damaged
      · simp [hm, List.mem_cons]
      · simp only [hm, ite_false]
        rw [if_neg]
        rintro ⟨hmem, hdam⟩
        rcases List.mem_cons.mp hmem with hc | hc
        · injection hc with h1 h2
          subst h1
          subst h2
          exact hq hdam
        · exact hm ⟨hc, hdam⟩

/-- C9: at lossless quality, shard `i` only encodes tiles whose grid column
is congruent to `i` modulo 4, and every tile it encodes is compressed through
deflate stream `column % 4 = i` — no other stream is mutated on behalf
of a tile; conversely every damaged in-range tile at column `x` is encoded, with
stream `x % 4`, by shard `x % 4`. -/
theorem tight_shard_stream_routing (gw gh : Nat) (g : Grid) :
    (∀ i, i < 4 → ∀ e ∈ (do_tight_zs_work i gw gh g).2,
      e.1.1 % 4 = i ∧ e.2 = i ∧ e.1.1 < gw ∧ e.1.2 < gh) ∧
    (∀ x y, x < gw → y < gh → g x y = TileState.damaged →
      ((x, y), x % 4) ∈ (do_tight_zs_work (x % 4) gw gh g).2) := by
  constructor
  · intro i hi e he
    unfold do_tight_zs_work at he
    rcases zsWork_log_shape _ _ _ _ he with hl | ⟨p, hp, rfl⟩
    · simp at hl
    · obtain ⟨px, py⟩ := p
      obtain ⟨⟨hx, hmod⟩, hy⟩ := (mem_shardTiles i gw gh px py hi).mp hp
      exact ⟨hmod, by simpa using hmod, hx, hy⟩
  · intro x y hx hy hd
    unfold do_tight_zs_work
    refine zsWork_log_complete _ _ _ (x, y) ?_ hd
    exact (mem_shardTiles (x % 4) gw gh x y (by omega)).mpr ⟨⟨hx, rfl⟩, hy⟩

/-- C9 witness: the theorem applied to a 5×1 grid that is fully damaged, at
the log entry for tile `(1, 0)` of shard 1 and at the damaged tile `(2, 0)`
handled by shard `2 % 4`. -/
theorem tight_shard_stream_routing_witness :
    (1 : Nat) < 4 ∧
    ((1, 0), 1) ∈ (do_tight_zs_work 1 5 1 fun _ _ => TileState.damaged).2 ∧
    ((1 : Nat) % 4 = 1 ∧ (1 : Nat) = 1 ∧ (1 : Nat) < 5 ∧ (0 : Nat) < 1) ∧
    ((2, 0), 2 % 4) ∈ (do_tight_zs_work (2 % 4) 5 1 fun _ _ => TileState.damaged).2 := by
  refine ⟨by decide, by decide, ?_, ?_⟩
  · exact (tight_shard_stream_routing 5 1 fun _ _ => TileState.damaged).1
      1 (by decide) ((1, 0), 1) (by decide)
  · exact (tight_shard_stream_routing 5 1 fun _ _ => TileState.damaged).2
      2 0 (by decide) (by decide) rfl

/-! ## Grid state after all four shards -/

theorem do_tight_zs_work_grid (i gw gh : Nat) (g : Grid) (x y : Nat) :
    (do_tight_zs_work i gw gh g).1 x y =
      if (x, y) ∈ shardTiles i gw gh ∧ g x y = TileState.damaged then
        TileState.encoded
      else g x y := by
  unfold do_tight_zs_work
  exact zsWork_grid _ _ _ _ _

theorem runAllZsWork_grid (gw gh : Nat) (g : Grid) (x y : Nat)
    (hx : x < gw) (hy : y < gh) :
    runAllZsWork gw gh g x y =
      if g x y = TileState.damaged then TileState.encoded else g x y := by
  have hmem : ∀ i, i < 4 → ((x, y) ∈ shardTiles i gw gh ↔ x % 4 = i) := by
    intro i hi
    rw [mem_shardTiles i gw gh x y hi]
    constructor
    · rintro ⟨⟨_, hm⟩, _⟩
      exact hm
    · intro hm
      exact ⟨⟨hx, hm⟩, hy⟩
  have m0 := hmem 0 (by norm_num)
  have m1 := hmem 1 (by norm_num)
  have m2 := hmem 2 (by norm_num)
  have m3 := hmem 3 (by norm_num)
  unfold runAllZsWork
  rw [do_tight_zs_work_grid, do_tight_zs_work_grid, do_tight_zs_work_grid,
    do_tight_zs_work_grid]
  have h4 : x % 4 = 0 ∨ x % 4 = 1 ∨ x % 4 = 2 ∨ x % 4 = 3 := by omega
  rcases h4 with h4 | h4 | h4 | h4 <;>
    by_cases hd : g x y = TileState.damaged <;>
    simp [m0, m1, m2, m3, h4, hd]

/-! ## Finish-pass characterisation -/

/-- `finishStep` unfolded at a triple accumulator. -/
theorem finishStep_eq (w h : Nat) (dst : List Nat) (g : Grid)
    (hs : List RectHead) (p : Nat × Nat) :
    finishStep w h (dst, g, hs) p =
      if g p.1 p.2 = TileState.encoded then
        (dst ++ rectHeadBytes
          ⟨64 * p.1, 64 * p.2, tight_tile_width w (64 * p.1),
            tight_tile_height h (64 * p.2), RFB_ENCODING_TIGHT⟩,
          gridSet g p.1 p.2 TileState.ready,
          hs ++ [⟨64 * p.1, 64 * p.2, tight_tile_width w (64 * p.1),
            tight_tile_height h (64 * p.2), RFB_ENCODING_TIGHT⟩])
      else (dst, g, hs) := rfl

theorem finish_foldl_heads (w h : Nat) (ps : List (Nat × Nat)) (hnd : ps.Nodup)
    (dst : List Nat) (g : Grid) (hs : List RectHead) :
    (ps.foldl (finishStep w h) (dst, g, hs)).2.2.length =
      hs.length + (ps.filter fun p => g p.1 p.2 = TileState.encoded).length := by
  induction ps generalizing dst g hs with
  | nil => simp
  | cons q tl ih =>
    obtain ⟨hq, hnd2⟩ := List.nodup_cons.mp hnd
    simp only [List.foldl_cons, finishStep_eq]
    rw [List.filter_cons]
    by_cases h1 : g q.1 q.2 = TileState.encoded
    · simp only [h1, ite_true]
      rw [ih hnd2]
      have hflt : (tl.filter fun p =>
            gridSet g q.1 q.2 TileState.ready p.1 p.2 = TileState.encoded) =
          (tl.filter fun p => g p.1 p.2 = TileState.encoded) := by
        apply List.filter_congr
        intro p hp
        have hpq : p ≠ q := fun hc => hq (hc ▸ hp)
        have hno : ¬(p.1 = q.1 ∧ p.2 = q.2) := fun hc => hpq (Prod.ext hc.1 hc.2)
        simp [gridSet, hno]
      rw [hflt]
      simp [h1]
      omega
    · simp only [h1, ite_false]
      rw [ih hnd2]
      simp [h1]

theorem finish_foldl_dst (w h : Nat) (ps : List (Nat × Nat)) (dst : List Nat)
    (g : Grid) (hs : List RectHead) :
    ∃ t, (ps.foldl (finishStep w h) (dst, g, hs)).1 = dst ++ t := by
  induction ps generalizing dst g hs with
  | nil => exact ⟨[], by simp⟩
  | cons q tl ih =>
    simp only [List.foldl_cons, finishStep_eq]
    by_cases h1 : g q.1 q.2 = TileState.encoded
    · simp only [h1, ite_true]
      obtain ⟨t, ht⟩ := ih (dst ++ rectHeadBytes
          ⟨64 * q.1, 64 * q.2, tight_tile_width w (64 * q.1),
            tight_tile_height h (64 * q.2), RFB_ENCODING_TIGHT⟩)
        (gridSet g q.1 q.2 TileState.ready)
        (hs ++ [⟨64 * q.1, 64 * q.2, tight_tile_width w (64 * q.1),
          tight_tile_height h (64 * q.2), RFB_ENCODING_TIGHT⟩])
      refine ⟨rectHeadBytes
        ⟨64 * q.1, 64 * q.2, tight_tile_width w (64 * q.1),
          tight_tile_height h (64 * q.2), RFB_ENCODING_TIGHT⟩ ++ t, ?_⟩
      rw [ht, List.append_assoc]
    · simp only [h1, ite_false]
      exact ih dst g hs

theorem rowMajorTiles_eq_product_map (gw gh : Nat) :
    rowMajorTiles gw gh =
      ((List.range gh).product (List.range gw)).map fun p => (p.2, p.1) := by
  show rowMajorTiles gw gh =
    ((List.range gh).flatMap fun a => (List.range gw).map (Prod.mk a)).map
      fun p => (p.2, p.1)
  rw [List.map_flatMap]
  unfold rowMajorTiles
  congr 1
  funext a
  rw [List.map_map]
  rfl

theorem rowMajorTiles_nodup (gw gh : Nat) : (rowMajorTiles gw gh).Nodup := by
  rw [rowMajorTiles_eq_product_map]
  refine List.Nodup.map ?_
    (List.Nodup.product (List.nodup_range gh) (List.nodup_range gw))
  intro a b hab
  obtain ⟨a1, a2⟩ := a
  obtain ⟨b1, b2⟩ := b
  simp only [Prod.mk.injEq] at hab ⊢
  exact ⟨hab.2, hab.1⟩

/-! ## C7: rectangle count vs. appended heads -/

/-- C7: for every Tight frame encode whose damaged-tile count fits the u16
header field, the rectangle count written as the big-endian u16 at the start
of the destination buffer equals the number of rectangle heads the
finalisation pass appends to that buffer. -/
theorem tight_n_rects_matches_heads (w h : Nat) (damage : Region)
    (hc : (tightFramePipeline w h damage).1 < 2 ^ 16) :
    readU16be (tightFramePipeline w h damage).2.1 =
      (tightFramePipeline w h damage).2.2.length := by
  simp only [tightFramePipeline] at hc ⊢
  set gw := (w + 63) / 64 with hgw
  set gh := (h + 63) / 64 with hgh
  set r := tight_apply_damage gw gh damage fun _ _ => TileState.ready with hr
  -- the number of heads equals the damaged-tile count
  have hheads :
      (tight_finish w h gw gh (runAllZsWork gw gh r.2)
        (encode_rect_count [] r.1)).2.2.length = r.1 := by
    unfold tight_finish
    rw [finish_foldl_heads w h _ (rowMajorTiles_nodup gw gh)]
    have hflt : ((rowMajorTiles gw gh).filter fun p =>
          runAllZsWork gw gh r.2 p.1 p.2 = TileState.encoded) =
        ((rowMajorTiles gw gh).filter fun p =>
          regionOverlapsBox damage (tightDamageBox p.1 p.2)) := by
      apply List.filter_congr
      intro p hp
      obtain ⟨hx, hy⟩ := (mem_rowMajorTiles gw gh p.1 p.2).mp (by simpa using hp)
      rw [runAllZsWork_grid gw gh r.2 p.1 p.2 hx hy,
        tight_apply_damage_grid_eq gw gh damage _ p.1 p.2 hx hy]
      by_cases hov : regionOverlapsBox damage (tightDamageBox p.1 p.2) <;>
        simp [hov]
    rw [hflt, hr, tight_apply_damage_count_eq]
    simp
  -- the destination buffer starts with the big-endian u16 of the count
  have hdst : ∃ t,
      (tight_finish w h gw gh (runAllZsWork gw gh r.2)
        (encode_rect_count [] r.1)).1 = encode_rect_count [] r.1 ++ t := by
    unfold tight_finish
    exact finish_foldl_dst w h _ _ _ _
  obtain ⟨t, ht⟩ := hdst
  rw [hheads, ht]
  simp only [encode_rect_count, u16be, List.nil_append, List.cons_append,
    readU16be]
  omega

/-- C7 witness: the theorem applied to a 128×128 frame with full-frame
damage (a 2×2 tile grid, 4 damaged tiles). -/
theorem tight_n_rects_matches_heads_witness :
    readU16be (tightFramePipeline 128 128 [⟨0, 0, 128, 128⟩]).2.1 =
      (tightFramePipeline 128 128 [⟨0, 0, 128, 128⟩]).2.2.length :=
  tight_n_rects_matches_heads 128 128 [⟨0, 0, 128, 128⟩] (by decide)

/-! ## C10: the n_rects assertion -/

/-- C10: with frame mapping and buffer initialisation succeeding, a damage
region that leaves zero tiles damaged drives `tight_encode_frame` into the
failing `assert(self->n_rects > 0)`; when at least one tile is damaged the
assertion is unreachable, and with scheduling succeeding as well the call
proceeds to schedule encoding work with the header already written. -/
theorem tight_encode_frame_assert_behaviour (gw gh : Nat) (damage : Region)
    (g : Grid) (mapOk vecOk schedOk : Bool) :
    ((tight_apply_damage gw gh damage g).1 = 0 → mapOk = true → vecOk = true →
      tight_encode_frame gw gh mapOk vecOk schedOk damage g =
        EncodeFrameResult.assertAbort) ∧
    (0 < (tight_apply_damage gw gh damage g).1 →
      tight_encode_frame gw gh mapOk vecOk schedOk damage g ≠
        EncodeFrameResult.assertAbort ∧
      (mapOk = true → vecOk = true → schedOk = true →
        tight_encode_frame gw gh mapOk vecOk schedOk damage g =
          EncodeFrameResult.scheduled (tight_apply_damage gw gh damage g).1
            (encode_rect_count [] (tight_apply_damage gw gh damage g).1)
            (tight_apply_damage gw gh damage g).2)) := by
  constructor
  · intro h0 hm hv
    subst hm
    subst hv
    simp [tight_encode_frame, h0]
  · intro hpos
    constructor
    · unfold tight_encode_frame
      cases mapOk <;> cases vecOk <;> cases schedOk <;>
        simp [show (tight_apply_damage gw gh damage g).1 ≠ 0 by omega]
    · intro hm hv hs
      subst hm
      subst hv
      subst hs
      simp [tight_encode_frame, show (tight_apply_damage gw gh damage g).1 ≠ 0 by omega]

/-- C10 witness: the theorem applied to a one-tile grid, once with empty
damage (zero damaged tiles → the assertion fails) and once with full damage
(one damaged tile → work is scheduled). -/
theorem tight_encode_frame_assert_behaviour_witness :
    tight_encode_frame 1 1 true true true [] (fun _ _ => TileState.ready) =
      EncodeFrameResult.assertAbort ∧
    tight_encode_frame 1 1 true true true [⟨0, 0, 64, 64⟩]
      (fun _ _ => TileState.ready) ≠ EncodeFrameResult.assertAbort ∧
    tight_encode_frame 1 1 true true true [⟨0, 0, 64, 64⟩]
      (fun _ _ => TileState.ready) =
      EncodeFrameResult.scheduled
        (tight_apply_damage 1 1 [⟨0, 0, 64, 64⟩] fun _ _ => TileState.ready).1
        (encode_rect_count []
          (tight_apply_damage 1 1 [⟨0, 0, 64, 64⟩] fun _ _ => TileState.ready).1)
        (tight_apply_damage 1 1 [⟨0, 0, 64, 64⟩] fun _ _ => TileState.ready).2 := by
  refine ⟨?_, ?_, ?_⟩
  · exact (tight_encode_frame_assert_behaviour 1 1 []
      (fun _ _ => TileState.ready) true true true).1 (by decide) rfl rfl
  · exact ((tight_encode_frame_assert_behaviour 1 1 [⟨0, 0, 64, 64⟩]
      (fun _ _ => TileState.ready) true true true).2 (by decide)).1
  · exact ((tight_encode_frame_assert_behaviour 1 1 [⟨0, 0, 64, 64⟩]
      (fun _ _ => TileState.ready) true true true).2 (by decide)).2 rfl rfl rfl

end NeatVNC
